import Mathlib

/-!
Shallow embedding of the agent core of the `kin-code` repository, together
with proofs about its conversation-history repair, middleware pipeline,
tool runner, retry policy, and tool-call extraction.

Python is modelled as follows: machine integers become `Int`/`Nat`; Python
floats used for thresholds and percentages become `Rat` with explicit
truncation where the code calls `int(...)`; `None`-able values become
`Option`; fallible code returns `Except`; mutation of a stats object
becomes explicit state passing; the asynchronous generator of the tool
runner becomes a pure function from the per-call outcomes to the list of
emitted events plus the final stats.
-/

namespace KinCode

/-- Message role. Modelled from the spec: enum `{system, user, assistant, tool}`
(the defining module `kin_code/core/types.py` is not in the sources). -/
inductive Role where
  | system
  | user
  | assistant
  | tool
deriving DecidableEq

/-- The `function` payload of a provider tool call: function name and the raw
JSON text of its arguments. Modelled from the spec: `ToolCall: {id, function_name,
arguments_json_text}`, with both fields optional as in the pydantic model. -/
structure ToolCallFunction where
  name : Option String
  arguments : Option String
deriving DecidableEq

/-- A provider-issued tool call attached to an assistant message. Modelled from
the spec: `ToolCall: {id (provider-issued or xml_<hex> for XML-parsed),
function_name, arguments_json_text}`. -/
structure ToolCall where
  id : Option String
  function : Option ToolCallFunction
deriving DecidableEq

/-- A conversation message. Modelled from the spec: `Message: {role, content:
optional text, tool_calls: optional ordered list of ToolCall, tool_call_id:
optional, tool_name: optional}` (an absent `tool_calls` field and an empty list
behave identically in the code, so both are the empty list here). -/
structure LLMMessage where
  role : Role
  content : Option String
  tool_calls : List ToolCall
  tool_call_id : Option String
  name : Option String
deriving DecidableEq

/-- Python truthiness-based `x or d` on an optional string: the default is used
when the value is `None` or the empty string. -/
def pyOr (x : Option String) (d : String) : String :=
  match x with
  | none => d
  | some s => if s = "" then d else s

/-- Tag wrapped around user-cancellation messages (`utils.CANCELLATION_TAG`). -/
def CANCELLATION_TAG : String := "user_cancellation"

/-- Text with a semantic tag (`utils.TaggedText`). -/
structure TaggedText where
  message : String
  tag : String
deriving DecidableEq

/-- Rendering of `TaggedText.__str__`: the message wrapped in the tag, or the
bare message when the tag is empty. -/
def TaggedText.toStr (t : TaggedText) : String :=
  if t.tag = "" then t.message else "<" ++ t.tag ++ ">" ++ t.message ++ "</" ++ t.tag ++ ">"

/-- Reasons for user cancellation (`utils.CancellationReason`). -/
inductive CancellationReason where
  | OPERATION_CANCELLED
  | TOOL_INTERRUPTED
  | TOOL_NO_RESPONSE
  | TOOL_SKIPPED
deriving DecidableEq

/-- `utils.get_user_cancellation_message`: the tagged text used for each
cancellation reason. -/
def get_user_cancellation_message (reason : CancellationReason)
    (tool_name : Option String) : TaggedText :=
  match reason with
  | .OPERATION_CANCELLED => ⟨"User cancelled the operation.", CANCELLATION_TAG⟩
  | .TOOL_INTERRUPTED => ⟨"Tool execution interrupted by user.", CANCELLATION_TAG⟩
  | .TOOL_NO_RESPONSE =>
      ⟨"Tool execution interrupted - no response available", CANCELLATION_TAG⟩
  | .TOOL_SKIPPED => ⟨pyOr tool_name "Tool execution skipped by user.", CANCELLATION_TAG⟩

namespace ConversationHistory

/-- `ConversationHistory.count_tool_responses`: the number of consecutive
role=tool messages at the head of the list. -/
def count_tool_responses : List LLMMessage → Nat
  | [] => 0
  | m :: rest => if m.role = Role.tool then count_tool_responses rest + 1 else 0

/-- `ConversationHistory.create_missing_response`: the synthetic tool response
inserted for a tool call that never received one. -/
def create_missing_response (tool_call_data : ToolCall) : LLMMessage :=
  let tool_name : String :=
    match tool_call_data.function with
    | some f => pyOr f.name ""
    | none => ""
  { role := Role.tool
    content := some ((get_user_cancellation_message .TOOL_NO_RESPONSE none).toStr)
    tool_calls := []
    tool_call_id := some (pyOr tool_call_data.id "")
    name := some tool_name }

/-- The body of the `while` loop of `fill_missing_tool_responses`, acting on the
suffix of the message list that starts at the current index `i ≥ 1`.  An
assistant message with `k` tool calls and `a < k` following tool responses gets
`k - a` synthetic responses inserted after the existing ones, and the scan
resumes `1 + k` positions further; any other message is stepped over. -/
def fillLoop : List LLMMessage → List LLMMessage
  | [] => []
  | m :: rest =>
    if m.role = Role.assistant ∧ m.tool_calls ≠ [] then
      if count_tool_responses rest < m.tool_calls.length then
        m :: (rest.take (count_tool_responses rest)
          ++ (m.tool_calls.drop (count_tool_responses rest)).map create_missing_response
          ++ fillLoop (rest.drop (count_tool_responses rest)))
      else
        m :: (rest.take m.tool_calls.length ++ fillLoop (rest.drop m.tool_calls.length))
    else
      m :: fillLoop rest
termination_by l => l.length
decreasing_by
  · simp only [List.length_drop, List.length_cons]; omega
  · simp only [List.length_drop, List.length_cons]; omega
  · simp only [List.length_cons]; omega

/-- `ConversationHistory.fill_missing_tool_responses`: the scan starts at index
1, so the first message is never examined. -/
def fill_missing_tool_responses : List LLMMessage → List LLMMessage
  | [] => []
  | m :: rest => m :: fillLoop rest

/-- The trivial assistant message appended by `ensure_assistant_after_tools`. -/
def understoodMessage : LLMMessage :=
  { role := Role.assistant, content := some "Understood.", tool_calls := []
    tool_call_id := none, name := none }

/-- `ConversationHistory.ensure_assistant_after_tools`: append a trivial
assistant message when the history ends with a tool response. -/
def ensure_assistant_after_tools (msgs : List LLMMessage) : List LLMMessage :=
  if msgs.length < 2 then msgs
  else
    match msgs.getLast? with
    | some last => if last.role = Role.tool then msgs ++ [understoodMessage] else msgs
    | none => msgs

/-- `ConversationHistory.clean`: on histories of at least two messages, fill the
missing tool responses and then guarantee a terminal non-tool message. -/
def clean (msgs : List LLMMessage) : List LLMMessage :=
  if msgs.length < 2 then msgs
  else ensure_assistant_after_tools (fill_missing_tool_responses msgs)

theorem fillLoop_nil : fillLoop [] = [] := by
  simp [fillLoop]

theorem fillLoop_cons_inert (m : LLMMessage) (rest : List LLMMessage)
    (h : ¬(m.role = Role.assistant ∧ m.tool_calls ≠ [])) :
    fillLoop (m :: rest) = m :: fillLoop rest := by
  rw [fillLoop]
  simp only [if_neg h]

theorem fillLoop_cons_lt (m : LLMMessage) (rest : List LLMMessage)
    (h : m.role = Role.assistant ∧ m.tool_calls ≠ [])
    (hlt : count_tool_responses rest < m.tool_calls.length) :
    fillLoop (m :: rest) = m :: (rest.take (count_tool_responses rest)
      ++ (m.tool_calls.drop (count_tool_responses rest)).map create_missing_response
      ++ fillLoop (rest.drop (count_tool_responses rest))) := by
  rw [fillLoop]
  simp only [if_pos h, if_pos hlt]

theorem fillLoop_cons_ge (m : LLMMessage) (rest : List LLMMessage)
    (h : m.role = Role.assistant ∧ m.tool_calls ≠ [])
    (hge : ¬ count_tool_responses rest < m.tool_calls.length) :
    fillLoop (m :: rest) =
      m :: (rest.take m.tool_calls.length ++ fillLoop (rest.drop m.tool_calls.length)) := by
  rw [fillLoop]
  simp only [if_pos h, if_neg hge]

theorem count_tool_responses_le_length (l : List LLMMessage) :
    count_tool_responses l ≤ l.length := by
  induction l with
  | nil => simp [count_tool_responses]
  | cons m rest ih =>
    rw [count_tool_responses]
    split
    · simpa using ih
    · simp

theorem count_tool_responses_append_tools (t u : List LLMMessage)
    (h : ∀ x ∈ t, x.role = Role.tool) :
    count_tool_responses (t ++ u) = t.length + count_tool_responses u := by
  induction t with
  | nil => simp
  | cons m rest ih =>
    have hm : m.role = Role.tool := h m (by simp)
    rw [List.cons_append, count_tool_responses, if_pos hm,
      ih (fun x hx => h x (by simp [hx]))]
    simp
    omega

theorem mem_take_count_tool (l : List LLMMessage) :
    ∀ x ∈ l.take (count_tool_responses l), x.role = Role.tool := by
  induction l with
  | nil => simp
  | cons m rest ih =>
    rw [count_tool_responses]
    split
    · intro x hx
      rw [List.take_succ_cons] at hx
      rcases List.mem_cons.mp hx with h | h
      · subst h; assumption
      · exact ih x h
    · simp

theorem mem_take_of_le_count (l : List LLMMessage) (k : Nat)
    (hk : k ≤ count_tool_responses l) :
    ∀ x ∈ l.take k, x.role = Role.tool := by
  intro x hx
  apply mem_take_count_tool l
  have heq : l.take k = (l.take (count_tool_responses l)).take k := by
    rw [List.take_take, min_eq_left hk]
  rw [heq] at hx
  exact List.take_subset _ _ hx

theorem count_tool_responses_append_single (u : LLMMessage) (hu : u.role ≠ Role.tool)
    (l : List LLMMessage) :
    count_tool_responses (l ++ [u]) = count_tool_responses l := by
  induction l with
  | nil => simp [count_tool_responses, hu]
  | cons m rest ih =>
    rw [List.cons_append, count_tool_responses, count_tool_responses, ih]

theorem create_missing_response_role (tc : ToolCall) :
    (create_missing_response tc).role = Role.tool := by
  rfl

/-- The filling scan only makes the list longer. -/
theorem length_le_fillLoop : ∀ l : List LLMMessage, l.length ≤ (fillLoop l).length := by
  have key : ∀ n, ∀ l : List LLMMessage, l.length ≤ n → l.length ≤ (fillLoop l).length := by
    intro n
    induction n with
    | zero =>
      intro l hl
      have : l = [] := List.length_eq_zero.mp (Nat.le_zero.mp hl)
      subst this
      simp [fillLoop_nil]
    | succ n ih =>
      intro l hl
      match l with
      | [] => simp [fillLoop_nil]
      | m :: rest =>
        have hrest : rest.length ≤ n := by
          simp only [List.length_cons] at hl; omega
        by_cases hm : m.role = Role.assistant ∧ m.tool_calls ≠ []
        · have ha := count_tool_responses_le_length rest
          by_cases hlt : count_tool_responses rest < m.tool_calls.length
          · rw [fillLoop_cons_lt m rest hm hlt]
            have h1 := ih (rest.drop (count_tool_responses rest))
              (by simp only [List.length_drop]; omega)
            simp only [List.length_cons, List.length_append, List.length_take,
              List.length_map, List.length_drop] at h1 ⊢
            omega
          · rw [fillLoop_cons_ge m rest hm hlt]
            have h1 := ih (rest.drop m.tool_calls.length)
              (by simp only [List.length_drop]; omega)
            simp only [List.length_cons, List.length_append, List.length_take,
              List.length_drop] at h1 ⊢
            omega
        · rw [fillLoop_cons_inert m rest hm]
          have h1 := ih rest hrest
          simp only [List.length_cons]
          omega
  exact fun l => key l.length l le_rfl

/-- Appending a non-tool, non-tool-calling message at the end commutes with the
filling scan: the scan never looks past such a message. -/
theorem fillLoop_append_single (u : LLMMessage) (hu1 : u.role ≠ Role.tool)
    (hu2 : ¬(u.role = Role.assistant ∧ u.tool_calls ≠ [])) :
    ∀ l : List LLMMessage, fillLoop (l ++ [u]) = fillLoop l ++ [u] := by
  have key : ∀ n, ∀ l : List LLMMessage, l.length ≤ n →
      fillLoop (l ++ [u]) = fillLoop l ++ [u] := by
    intro n
    induction n with
    | zero =>
      intro l hl
      have : l = [] := List.length_eq_zero.mp (Nat.le_zero.mp hl)
      subst this
      simp [fillLoop_nil, fillLoop_cons_inert u [] hu2]
    | succ n ih =>
      intro l hl
      match l with
      | [] => simp [fillLoop_nil, fillLoop_cons_inert u [] hu2]
      | m :: rest =>
        have hrest : rest.length ≤ n := by
          simp only [List.length_cons] at hl; omega
        have hcount : count_tool_responses (rest ++ [u]) = count_tool_responses rest :=
          count_tool_responses_append_single u hu1 rest
        have ha := count_tool_responses_le_length rest
        by_cases hm : m.role = Role.assistant ∧ m.tool_calls ≠ []
        · by_cases hlt : count_tool_responses rest < m.tool_calls.length
          · rw [List.cons_append, fillLoop_cons_lt m (rest ++ [u]) hm (by rw [hcount]; exact hlt),
              fillLoop_cons_lt m rest hm hlt, hcount,
              List.take_append_of_le_length ha,
              List.drop_append_of_le_length ha,
              ih (rest.drop (count_tool_responses rest)) (by simp only [List.length_drop]; omega)]
            simp [List.append_assoc]
          · have hk : m.tool_calls.length ≤ rest.length := by omega
            rw [List.cons_append, fillLoop_cons_ge m (rest ++ [u]) hm (by rw [hcount]; exact hlt),
              fillLoop_cons_ge m rest hm hlt,
              List.take_append_of_le_length hk,
              List.drop_append_of_le_length hk,
              ih (rest.drop m.tool_calls.length) (by simp only [List.length_drop]; omega)]
            simp [List.append_assoc]
        · rw [List.cons_append, fillLoop_cons_inert m (rest ++ [u]) hm,
            fillLoop_cons_inert m rest hm, ih rest hrest]
          simp
  exact fun l => key l.length l le_rfl

/-- The filling scan is idempotent: every assistant message it has processed is
followed by at least as many tool responses as it has tool calls, so a second
scan changes nothing. -/
theorem fillLoop_idem : ∀ l : List LLMMessage, fillLoop (fillLoop l) = fillLoop l := by
  have key : ∀ n, ∀ l : List LLMMessage, l.length ≤ n →
      fillLoop (fillLoop l) = fillLoop l := by
    intro n
    induction n with
    | zero =>
      intro l hl
      have : l = [] := List.length_eq_zero.mp (Nat.le_zero.mp hl)
      subst this
      simp [fillLoop_nil]
    | succ n ih =>
      intro l hl
      match l with
      | [] => simp [fillLoop_nil]
      | m :: rest =>
        have hrest : rest.length ≤ n := by
          simp only [List.length_cons] at hl; omega
        have ha := count_tool_responses_le_length rest
        by_cases hm : m.role = Role.assistant ∧ m.tool_calls ≠ []
        · by_cases hlt : count_tool_responses rest < m.tool_calls.length
          · -- the processed segment: a real responses, then k - a synthetic ones
            set a := count_tool_responses rest with ha_def
            set k := m.tool_calls.length with hk_def
            set T : List LLMMessage := rest.take a
              ++ (m.tool_calls.drop a).map create_missing_response with hT_def
            have hTtool : ∀ x ∈ T, x.role = Role.tool := by
              intro x hx
              rcases List.mem_append.mp hx with h | h
              · exact mem_take_count_tool rest x h
              · rcases List.mem_map.mp h with ⟨tc, _, rfl⟩
                exact create_missing_response_role tc
            have hTlen : T.length = k := by
              simp only [hT_def, List.length_append, List.length_take, List.length_map,
                List.length_drop]
              omega
            have step : fillLoop (m :: rest) =
                m :: (T ++ fillLoop (rest.drop a)) := by
              rw [fillLoop_cons_lt m rest hm hlt]
            rw [step]
            have hcount2 : ¬ count_tool_responses (T ++ fillLoop (rest.drop a)) < k := by
              rw [count_tool_responses_append_tools T _ hTtool, hTlen]
              omega
            rw [fillLoop_cons_ge m (T ++ fillLoop (rest.drop a)) hm (by rw [← hk_def]; exact hcount2)]
            rw [← hk_def, List.take_left' hTlen, List.drop_left' hTlen]
            rw [ih (rest.drop a) (by simp only [List.length_drop]; omega)]
          · set a := count_tool_responses rest with ha_def
            set k := m.tool_calls.length with hk_def
            have hk : k ≤ rest.length := by omega
            set T : List LLMMessage := rest.take k with hT_def
            have hTtool : ∀ x ∈ T, x.role = Role.tool :=
              mem_take_of_le_count rest k (by omega)
            have hTlen : T.length = k := by
              simp only [hT_def, List.length_take]
              omega
            have step : fillLoop (m :: rest) = m :: (T ++ fillLoop (rest.drop k)) := by
              rw [fillLoop_cons_ge m rest hm hlt]
            rw [step]
            have hcount2 : ¬ count_tool_responses (T ++ fillLoop (rest.drop k)) < k := by
              rw [count_tool_responses_append_tools T _ hTtool, hTlen]
              omega
            rw [fillLoop_cons_ge m (T ++ fillLoop (rest.drop k)) hm (by rw [← hk_def]; exact hcount2)]
            rw [← hk_def, List.take_left' hTlen, List.drop_left' hTlen]
            rw [ih (rest.drop k) (by simp only [List.length_drop]; omega)]
        · rw [fillLoop_cons_inert m rest hm, fillLoop_cons_inert m (fillLoop rest) hm,
            ih rest hrest]
  exact fun l => key l.length l le_rfl

/-- A prefix of messages none of which is an assistant message carrying tool
calls is stepped over unchanged by the filling scan. -/
theorem fillLoop_inert_prefix (p l : List LLMMessage)
    (hp : ∀ x ∈ p, ¬(x.role = Role.assistant ∧ x.tool_calls ≠ [])) :
    fillLoop (p ++ l) = p ++ fillLoop l := by
  induction p with
  | nil => simp
  | cons x p ih =>
    rw [List.cons_append, fillLoop_cons_inert x (p ++ l) (hp x (by simp)),
      ih (fun y hy => hp y (by simp [hy]))]
    rfl

/-- Appending a list whose first message is not a tool response changes no
count of consecutive tool responses taken inside the left part. -/
theorem count_tool_responses_append_head (t l : List LLMMessage)
    (hl : ∀ x, l.head? = some x → x.role ≠ Role.tool) :
    count_tool_responses (t ++ l) = count_tool_responses t := by
  induction t with
  | nil =>
    rw [List.nil_append]
    match l with
    | [] => rfl
    | x :: l2 =>
      have hx := hl x rfl
      simp [count_tool_responses, hx]
  | cons y t2 ih =>
    rw [List.cons_append, count_tool_responses, count_tool_responses, ih]

/-- The filling scan factors across any split whose right part does not start
with a tool response: the scan never counts a run of tool responses across
such a boundary and never jumps over it, so both parts are repaired
independently.  In particular the segment before any assistant message is
repaired by the same scan, whatever it contains. -/
theorem fillLoop_append (p l : List LLMMessage)
    (hl : ∀ x, l.head? = some x → x.role ≠ Role.tool) :
    fillLoop (p ++ l) = fillLoop p ++ fillLoop l := by
  have key : ∀ n, ∀ p : List LLMMessage, p.length ≤ n →
      fillLoop (p ++ l) = fillLoop p ++ fillLoop l := by
    intro n
    induction n with
    | zero =>
      intro p hp
      have : p = [] := List.length_eq_zero.mp (Nat.le_zero.mp hp)
      subst this
      simp [fillLoop_nil]
    | succ n ih =>
      intro p hp
      match p with
      | [] => simp [fillLoop_nil]
      | x :: p2 =>
        have hp2 : p2.length ≤ n := by
          simp only [List.length_cons] at hp; omega
        have hcount : count_tool_responses (p2 ++ l) = count_tool_responses p2 :=
          count_tool_responses_append_head p2 l hl
        have ha := count_tool_responses_le_length p2
        by_cases hx : x.role = Role.assistant ∧ x.tool_calls ≠ []
        · by_cases hlt : count_tool_responses p2 < x.tool_calls.length
          · rw [List.cons_append,
              fillLoop_cons_lt x (p2 ++ l) hx (by rw [hcount]; exact hlt),
              fillLoop_cons_lt x p2 hx hlt, hcount,
              List.take_append_of_le_length ha,
              List.drop_append_of_le_length ha,
              ih (p2.drop (count_tool_responses p2)) (by simp only [List.length_drop]; omega)]
            simp [List.append_assoc]
          · have hk : x.tool_calls.length ≤ p2.length := by omega
            rw [List.cons_append,
              fillLoop_cons_ge x (p2 ++ l) hx (by rw [hcount]; exact hlt),
              fillLoop_cons_ge x p2 hx hlt,
              List.take_append_of_le_length hk,
              List.drop_append_of_le_length hk,
              ih (p2.drop x.tool_calls.length) (by simp only [List.length_drop]; omega)]
            simp [List.append_assoc]
        · rw [List.cons_append, fillLoop_cons_inert x (p2 ++ l) hx,
            fillLoop_cons_inert x p2 hx, ih p2 hp2]
          simp
  exact key p.length p le_rfl

theorem fill_missing_tool_responses_idem (l : List LLMMessage) :
    fill_missing_tool_responses (fill_missing_tool_responses l) =
      fill_missing_tool_responses l := by
  match l with
  | [] => rfl
  | m :: rest =>
    rw [fill_missing_tool_responses, fill_missing_tool_responses, fillLoop_idem]

theorem length_le_fill_missing (l : List LLMMessage) :
    l.length ≤ (fill_missing_tool_responses l).length := by
  match l with
  | [] => simp [fill_missing_tool_responses]
  | m :: rest =>
    rw [fill_missing_tool_responses]
    simp only [List.length_cons, Nat.add_le_add_iff_right]
    exact length_le_fillLoop rest

theorem understoodMessage_inert :
    understoodMessage.role ≠ Role.tool ∧
      ¬(understoodMessage.role = Role.assistant ∧ understoodMessage.tool_calls ≠ []) := by
  refine ⟨by simp [understoodMessage], ?_⟩
  simp [understoodMessage]

theorem ensure_eq_of_getLast (msgs : List LLMMessage) (h2 : ¬ msgs.length < 2)
    (last : LLMMessage) (hlast : msgs.getLast? = some last) :
    ensure_assistant_after_tools msgs =
      if last.role = Role.tool then msgs ++ [understoodMessage] else msgs := by
  rw [ensure_assistant_after_tools, if_neg h2, hlast]

/-- C2: cleaning an already-cleaned history changes nothing. -/
theorem clean_idempotent (msgs : List LLMMessage) : clean (clean msgs) = clean msgs := by
  by_cases h2 : msgs.length < 2
  · have hc : clean msgs = msgs := by rw [clean, if_pos h2]
    rw [hc]
    exact hc
  · have hc : clean msgs =
        ensure_assistant_after_tools (fill_missing_tool_responses msgs) := by
      rw [clean, if_neg h2]
    rw [hc]
    match msgs, h2 with
    | m :: rest, h2 =>
      have hF : fill_missing_tool_responses (m :: rest) = m :: fillLoop rest := rfl
      have hFlen : 2 ≤ (m :: fillLoop rest).length := by
        have := length_le_fill_missing (m :: rest)
        rw [hF] at this
        simp only [List.length_cons] at h2 this ⊢
        omega
      rw [hF]
      have hne : m :: fillLoop rest ≠ [] := by simp
      match hlast : (m :: fillLoop rest).getLast? with
      | none => exact absurd (List.getLast?_eq_none_iff.mp hlast) hne
      | some last =>
        rw [ensure_eq_of_getLast _ (by omega) last hlast]
        by_cases htool : last.role = Role.tool
        · rw [if_pos htool]
          -- the appended assistant message keeps the history clean
          have hfill2 : fill_missing_tool_responses ((m :: fillLoop rest) ++ [understoodMessage]) =
              (m :: fillLoop rest) ++ [understoodMessage] := by
            rw [List.cons_append, fill_missing_tool_responses,
              fillLoop_append_single understoodMessage understoodMessage_inert.1
                understoodMessage_inert.2, fillLoop_idem]
          have hlen2 : ¬ ((m :: fillLoop rest) ++ [understoodMessage]).length < 2 := by
            simp only [List.length_append, List.length_cons]
            omega
          rw [clean, if_neg hlen2, hfill2,
            ensure_eq_of_getLast _ hlen2 understoodMessage (List.getLast?_concat _),
            if_neg understoodMessage_inert.1]
        · rw [if_neg htool]
          have hfill2 : fill_missing_tool_responses (m :: fillLoop rest) =
              m :: fillLoop rest := by
            rw [fill_missing_tool_responses, fillLoop_idem]
          rw [clean, if_neg (by omega), hfill2,
            ensure_eq_of_getLast _ (by omega) last hlast, if_neg htool]

/-- C1 (amended): for every assistant message at index ≥ 1 of the history —
whatever precedes it, the preceding segment being repaired by the same scan —
with `k` tool calls but only `a < k` immediately following tool responses, the
repair inserts the synthetic responses for the calls numbered `a, …, k-1`, in
order, right after the existing responses; each synthetic response is a
role=tool message whose content is the tag-wrapped string
`<user_cancellation>Tool execution interrupted - no response available</user_cancellation>`
and whose tool_call_id is the id of the missing call (empty string when the
call has no id). -/
theorem fill_missing_inserts_synthetic (first : LLMMessage) (p : List LLMMessage)
    (m : LLMMessage) (rest : List LLMMessage)
    (hm : m.role = Role.assistant) (hcalls : m.tool_calls ≠ [])
    (hmiss : count_tool_responses rest < m.tool_calls.length) :
    fill_missing_tool_responses (first :: (p ++ m :: rest)) =
      first :: (fillLoop p ++ m :: (rest.take (count_tool_responses rest)
        ++ (m.tool_calls.drop (count_tool_responses rest)).map create_missing_response
        ++ fillLoop (rest.drop (count_tool_responses rest))))
    ∧ ∀ tc : ToolCall, (create_missing_response tc).role = Role.tool
      ∧ (create_missing_response tc).content =
        some "<user_cancellation>Tool execution interrupted - no response available</user_cancellation>"
      ∧ (create_missing_response tc).tool_call_id = some (pyOr tc.id "") := by
  constructor
  · rw [fill_missing_tool_responses,
      fillLoop_append p (m :: rest)
        (by intro x hx
            have hxm : m = x := by simpa using hx
            rw [← hxm, hm]
            simp),
      fillLoop_cons_lt m rest ⟨hm, hcalls⟩ hmiss]
  · intro tc
    refine ⟨rfl, ?_, rfl⟩
    rw [create_missing_response]
    rfl

/-- A sample user message. -/
def sampleUser : LLMMessage :=
  { role := Role.user, content := some "hi", tool_calls := [], tool_call_id := none
    name := none }

/-- A sample assistant message carrying one tool call that never received a
response. -/
def sampleAssistant : LLMMessage :=
  { role := Role.assistant, content := some ""
    tool_calls := [⟨some "call_1", some ⟨some "shell", some "{}"⟩⟩]
    tool_call_id := none, name := none }

/-- C1 (counterexample): cleaning `[user, assistant-with-1-call]` inserts a
synthetic response whose content is the tag-wrapped string, not the bare string
the claim states; and an assistant message sitting at index 0 is never examined,
so `[assistant-with-1-call, user]` gets no insertion at all. -/
theorem clean_synthetic_content_is_tagged :
    (clean [sampleUser, sampleAssistant]).map (fun m => m.content) =
      [some "hi", some "",
        some "<user_cancellation>Tool execution interrupted - no response available</user_cancellation>",
        some "Understood."]
    ∧ ("<user_cancellation>Tool execution interrupted - no response available</user_cancellation>"
        : String) ≠ "Tool execution interrupted - no response available"
    ∧ clean [sampleAssistant, sampleUser] = [sampleAssistant, sampleUser] := by
  have h1 : fillLoop [sampleAssistant] =
      sampleAssistant :: [create_missing_response ⟨some "call_1", some ⟨some "shell", some "{}"⟩⟩] := by
    rw [fillLoop_cons_lt sampleAssistant [] (by constructor <;> simp [sampleAssistant])
      (by simp [count_tool_responses, sampleAssistant])]
    simp [sampleAssistant, fillLoop_nil, count_tool_responses]
  have h2 : fillLoop [sampleUser] = [sampleUser] := by
    rw [fillLoop_cons_inert sampleUser [] (by simp [sampleUser]), fillLoop_nil]
  refine ⟨?_, by decide, ?_⟩
  · rw [clean, if_neg (by simp), fill_missing_tool_responses, h1,
      ensure_assistant_after_tools, if_neg (by simp)]
    simp only [List.getLast?_cons_cons, List.getLast?_singleton]
    rw [if_pos (create_missing_response_role _)]
    simp [sampleUser, sampleAssistant, create_missing_response,
      get_user_cancellation_message, TaggedText.toStr, CANCELLATION_TAG, pyOr,
      understoodMessage]
  · rw [clean, if_neg (by simp), fill_missing_tool_responses, h2,
      ensure_assistant_after_tools, if_neg (by simp)]
    simp [sampleUser]

/-- A sample assistant message whose single tool call already has a response. -/
def sampleAnsweredAssistant : LLMMessage :=
  { role := Role.assistant, content := some ""
    tool_calls := [⟨some "call_0", some ⟨some "shell", some "{}"⟩⟩]
    tool_call_id := none, name := none }

/-- The tool response answering `sampleAnsweredAssistant`. -/
def sampleToolResponse : LLMMessage :=
  { role := Role.tool, content := some "ok", tool_calls := []
    tool_call_id := some "call_0", name := some "shell" }

/-- C1 (witness): the amended statement evaluated on the concrete history
`[user, assistant-with-answered-call, tool, assistant-missing-response]`,
where the under-responded assistant is not the first tool-calling one. -/
theorem fill_missing_inserts_synthetic_witness :
    count_tool_responses [] < sampleAssistant.tool_calls.length ∧
    (fill_missing_tool_responses
        (sampleUser :: ([sampleAnsweredAssistant, sampleToolResponse]
          ++ sampleAssistant :: [])) =
      sampleUser :: (fillLoop [sampleAnsweredAssistant, sampleToolResponse]
        ++ sampleAssistant :: (List.take (count_tool_responses []) []
          ++ (sampleAssistant.tool_calls.drop (count_tool_responses [])).map
              create_missing_response
          ++ fillLoop (List.drop (count_tool_responses []) [])))
    ∧ ∀ tc : ToolCall, (create_missing_response tc).role = Role.tool
      ∧ (create_missing_response tc).content =
        some "<user_cancellation>Tool execution interrupted - no response available</user_cancellation>"
      ∧ (create_missing_response tc).tool_call_id = some (pyOr tc.id "")) :=
  ⟨by simp [count_tool_responses, sampleAssistant],
    fill_missing_inserts_synthetic sampleUser
      [sampleAnsweredAssistant, sampleToolResponse] sampleAssistant []
      (by simp [sampleAssistant]) (by simp [sampleAssistant])
      (by simp [count_tool_responses, sampleAssistant])⟩

end ConversationHistory

/-! ### Middleware pipeline (`kin_code/core/middleware.py`) -/

/-- The four-valued middleware verdict (`middleware.MiddlewareAction`). -/
inductive MiddlewareAction where
  | CONTINUE
  | STOP
  | COMPACT
  | INJECT_MESSAGE
deriving DecidableEq

/-- Why a middleware reset is happening (`middleware.ResetReason`). -/
inductive ResetReason where
  | STOP
  | COMPACT
deriving DecidableEq

/-- The agent statistics counters used by the claims. Modelled from the spec:
`AgentStats {…, context_tokens, tool_calls_{agreed,rejected,succeeded,failed}, …}`
(the defining module `kin_code/core/types.py` is not in the sources; the
remaining fields play no role here). -/
structure AgentStats where
  context_tokens : Int
  tool_calls_agreed : Int
  tool_calls_rejected : Int
  tool_calls_failed : Int
  tool_calls_succeeded : Int
deriving DecidableEq

/-- What a middleware hook returns (`middleware.MiddlewareResult`); the
`metadata` dictionary only ever carries integer values in the embedded code. -/
structure MiddlewareResult where
  action : MiddlewareAction
  message : Option String
  reason : Option String
  metadata : List (String × Int)
deriving DecidableEq

/-- The default `MiddlewareResult()`: CONTINUE with no payload. -/
def continueResult : MiddlewareResult :=
  { action := .CONTINUE, message := none, reason := none, metadata := [] }

/-- The conversation state handed to middleware (`middleware.ConversationContext`);
the config field is irrelevant to the embedded middlewares. -/
structure ConversationContext where
  messages : List LLMMessage
  stats : AgentStats

/-- Python `int(...)` on a rational: truncation toward zero. -/
def pyInt (q : Rat) : Int :=
  if 0 ≤ q then ⌊q⌋ else -⌊-q⌋

/-- Configuration of `middleware.AutoCompactMiddleware`. -/
structure AutoCompactMiddleware where
  threshold_percent : Rat
  max_context : Int
  hard_ceiling : Option Int
deriving DecidableEq

/-- `AutoCompactMiddleware._get_threshold`: the percentage of the context
window truncated to an integer, capped by the hard ceiling when present. -/
def AutoCompactMiddleware.get_threshold (m : AutoCompactMiddleware) : Int :=
  let percent_threshold := pyInt ((m.max_context : Rat) * m.threshold_percent)
  match m.hard_ceiling with
  | some h => min percent_threshold h
  | none => percent_threshold

/-- `AutoCompactMiddleware.before_turn`: COMPACT with `{old_tokens, threshold}`
metadata as soon as the context size reaches the threshold. -/
def AutoCompactMiddleware.before_turn (m : AutoCompactMiddleware)
    (context : ConversationContext) : MiddlewareResult :=
  let threshold := m.get_threshold
  if threshold ≤ context.stats.context_tokens then
    { action := .COMPACT, message := none, reason := none,
      metadata := [("old_tokens", context.stats.context_tokens), ("threshold", threshold)] }
  else continueResult

/-- State of `middleware.ContextWarningMiddleware`: its configuration plus the
fired flag. -/
structure ContextWarningMiddleware where
  threshold_percent : Rat
  max_context : Option Int
  has_warned : Bool
deriving DecidableEq

/-- `ContextWarningMiddleware.reset`: the reset reason is discarded and the
fired flag is cleared unconditionally. -/
def ContextWarningMiddleware.reset (s : ContextWarningMiddleware)
    (_reset_reason : ResetReason) : ContextWarningMiddleware :=
  { s with has_warned := false }

/-- `MiddlewarePipeline.run_after_turn`, with each middleware's `after_turn`
modelled as a function from the context to its result: INJECT_MESSAGE raises
(the source message also names the offending middleware class), STOP and
COMPACT short-circuit, CONTINUE moves on. -/
def run_after_turn : List (ConversationContext → MiddlewareResult) →
    ConversationContext → Except String MiddlewareResult
  | [], _ => .ok continueResult
  | mw :: rest, context =>
    let result := mw context
    if result.action = .INJECT_MESSAGE then
      .error "INJECT_MESSAGE not allowed in after_turn"
    else if result.action = .STOP ∨ result.action = .COMPACT then
      .ok result
    else
      run_after_turn rest context

/-- Statistics object with all counters zero, for concrete evaluations. -/
def zeroStats : AgentStats :=
  { context_tokens := 0, tool_calls_agreed := 0, tool_calls_rejected := 0
    tool_calls_failed := 0, tool_calls_succeeded := 0 }

/-- C4 (counterexample): with threshold_percent = 1/2 and max_context = 101 the
code compacts at 50 context tokens, yet 50 is strictly below the real-number
threshold 50.5 = percent·max_context, so the claim's condition says CONTINUE. -/
theorem auto_compact_fires_below_real_threshold :
    (AutoCompactMiddleware.before_turn ⟨1/2, 101, none⟩
      ⟨[], { zeroStats with context_tokens := 50 }⟩).action = MiddlewareAction.COMPACT
    ∧ ¬ ((1/2 : Rat) * 101 ≤ (50 : Rat)) := by
  have hthr : AutoCompactMiddleware.get_threshold ⟨1/2, 101, none⟩ = 50 := by
    rw [AutoCompactMiddleware.get_threshold]
    norm_num [pyInt]
  constructor
  · rw [AutoCompactMiddleware.before_turn, if_pos (by rw [hthr])]
  · intro h
    norm_num at h

/-- C4 (amended): before_turn returns the COMPACT result with metadata
{old_tokens = context_tokens, threshold} exactly when the context tokens reach
min(int(percent·max_context), hard_ceiling) — the percentage threshold is
truncated to an integer before the comparison — and returns the default
CONTINUE result exactly otherwise. -/
theorem auto_compact_before_turn_spec (m : AutoCompactMiddleware)
    (context : ConversationContext) :
    (m.before_turn context =
        { action := .COMPACT, message := none, reason := none,
          metadata := [("old_tokens", context.stats.context_tokens),
            ("threshold", match m.hard_ceiling with
              | some h => min (pyInt ((m.max_context : Rat) * m.threshold_percent)) h
              | none => pyInt ((m.max_context : Rat) * m.threshold_percent))] }
      ↔ (match m.hard_ceiling with
          | some h => min (pyInt ((m.max_context : Rat) * m.threshold_percent)) h
          | none => pyInt ((m.max_context : Rat) * m.threshold_percent))
          ≤ context.stats.context_tokens)
    ∧ (m.before_turn context = continueResult ↔
        ¬ (match m.hard_ceiling with
            | some h => min (pyInt ((m.max_context : Rat) * m.threshold_percent)) h
            | none => pyInt ((m.max_context : Rat) * m.threshold_percent))
            ≤ context.stats.context_tokens) := by
  have hth : (match m.hard_ceiling with
      | some h => min (pyInt ((m.max_context : Rat) * m.threshold_percent)) h
      | none => pyInt ((m.max_context : Rat) * m.threshold_percent)) = m.get_threshold := by
    rw [AutoCompactMiddleware.get_threshold]
  rw [hth]
  by_cases hcmp : m.get_threshold ≤ context.stats.context_tokens
  · have hres : m.before_turn context =
        { action := .COMPACT, message := none, reason := none,
          metadata := [("old_tokens", context.stats.context_tokens),
            ("threshold", m.get_threshold)] } := by
      rw [AutoCompactMiddleware.before_turn, if_pos hcmp]
    rw [hres]
    constructor
    · exact ⟨fun _ => hcmp, fun _ => rfl⟩
    · constructor
      · intro h
        exact absurd h.symm (by simp [continueResult])
      · intro h
        exact absurd hcmp h
  · have hres : m.before_turn context = continueResult := by
      rw [AutoCompactMiddleware.before_turn, if_neg hcmp]
    rw [hres]
    constructor
    · constructor
      · intro h
        exact absurd h (by simp [continueResult])
      · intro h
        exact absurd h hcmp
    · exact ⟨fun _ => hcmp, fun _ => rfl⟩

/-- C5 (counterexample): a fired warning flag is cleared by a COMPACT reset,
contradicting the claim that only STOP clears it. -/
theorem context_warning_compact_reset_clears_flag :
    (ContextWarningMiddleware.reset ⟨1/2, some 1000, true⟩ ResetReason.COMPACT).has_warned
        = false
    ∧ (ContextWarningMiddleware.reset ⟨1/2, some 1000, true⟩ ResetReason.COMPACT).has_warned
        ≠ (⟨1/2, some 1000, true⟩ : ContextWarningMiddleware).has_warned := by
  exact ⟨rfl, by decide⟩

/-- C5 (amended): reset clears the has_warned flag for every reset reason —
STOP and COMPACT alike — and leaves the configuration untouched. -/
theorem context_warning_reset_always_clears (s : ContextWarningMiddleware)
    (reset_reason : ResetReason) :
    (s.reset reset_reason).has_warned = false
    ∧ (s.reset reset_reason).threshold_percent = s.threshold_percent
    ∧ (s.reset reset_reason).max_context = s.max_context := by
  exact ⟨rfl, rfl, rfl⟩

/-- C6: run_after_turn never returns an INJECT_MESSAGE result — a returned
result is CONTINUE, STOP or COMPACT — and whenever a middleware that is
actually reached (every earlier middleware returned CONTINUE) returns
INJECT_MESSAGE, the pipeline raises instead of returning. -/
theorem run_after_turn_rejects_inject
    (mws : List (ConversationContext → MiddlewareResult))
    (context : ConversationContext) :
    (∀ r : MiddlewareResult, run_after_turn mws context = .ok r →
      r.action = MiddlewareAction.CONTINUE ∨ r.action = MiddlewareAction.STOP
        ∨ r.action = MiddlewareAction.COMPACT)
    ∧ (∀ pre mw post, mws = pre ++ mw :: post →
        (∀ p ∈ pre, (p context).action = MiddlewareAction.CONTINUE) →
        (mw context).action = MiddlewareAction.INJECT_MESSAGE →
        ∃ e, run_after_turn mws context = .error e) := by
  constructor
  · induction mws with
    | nil =>
      intro r hr
      rw [run_after_turn] at hr
      cases hr
      exact Or.inl rfl
    | cons mw rest ih =>
      intro r hr
      rw [run_after_turn] at hr
      by_cases hinj : (mw context).action = MiddlewareAction.INJECT_MESSAGE
      · rw [if_pos hinj] at hr
        cases hr
      · rw [if_neg hinj] at hr
        by_cases hsc : (mw context).action = MiddlewareAction.STOP
            ∨ (mw context).action = MiddlewareAction.COMPACT
        · rw [if_pos hsc] at hr
          cases hr
          rcases hsc with h | h
          · exact Or.inr (Or.inl h)
          · exact Or.inr (Or.inr h)
        · rw [if_neg hsc] at hr
          exact ih r hr
  · intro pre
    induction pre generalizing mws with
    | nil =>
      intro mw post hmws _ hinj
      subst hmws
      refine ⟨"INJECT_MESSAGE not allowed in after_turn", ?_⟩
      rw [List.nil_append, run_after_turn, if_pos hinj]
    | cons p pre ih =>
      intro mw post hmws hpre hinj
      subst hmws
      have hp : (p context).action = MiddlewareAction.CONTINUE := hpre p (by simp)
      rw [List.cons_append, run_after_turn, if_neg (by simp [hp]), if_neg (by simp [hp])]
      exact ih (pre ++ mw :: post) mw post rfl
        (fun q hq => hpre q (by simp [hq])) hinj

/-- C6 (witness): a pipeline whose only middleware returns INJECT_MESSAGE in
after_turn raises. -/
theorem run_after_turn_rejects_inject_witness :
    ∃ e, run_after_turn
      [fun _ =>
        { action := .INJECT_MESSAGE, message := some "x", reason := none,
          metadata := [] }] ⟨[], zeroStats⟩ = .error e :=
  (run_after_turn_rejects_inject
      [fun _ =>
        { action := .INJECT_MESSAGE, message := some "x", reason := none,
          metadata := [] }] ⟨[], zeroStats⟩).2 []
    (fun _ =>
      { action := .INJECT_MESSAGE, message := some "x", reason := none,
        metadata := [] }) [] rfl (by simp) rfl

/-! ### Tool runner (`kin_code/core/tool_runner.py`)

`ToolRunner.handle_tool_calls` is an asynchronous generator mutating a stats
object.  It is embedded as a pure function from the per-call environment
behaviour — for each resolved call, whether the tool lookup fails, the
permission decision is SKIP, and how the invocation ends — to the list of
emitted events and the final stats.  The history-append side effects carry the
same texts as the emitted events and are not modelled separately. -/

namespace ToolRunner

/-- Tag wrapped around tool errors (`utils.TOOL_ERROR_TAG`). -/
def TOOL_ERROR_TAG : String := "tool_error"

/-- A tool call that already failed validation (spec: `FailedToolCall
{call_id, tool_name, error}`). -/
structure FailedToolCall where
  tool_name : String
  error : String
  call_id : String
deriving DecidableEq

/-- The part of a `ResolvedToolCall` the runner's bookkeeping observes: its
name and call id (the validated args and tool class only flow into the events
verbatim). -/
structure ResolvedCall where
  tool_name : String
  call_id : String
deriving DecidableEq

/-- How the environment behaves for one resolved call: the tool lookup raises,
the permission decision is SKIP, or the invocation streams `streamed` events
and then yields a result, yields nothing, raises `ToolError`, raises
`ToolPermissionError`, or is cancelled. -/
inductive CallOutcome where
  | lookupFailure (exc : String)
  | skip (feedback : Option String)
  | success (streamed : Nat)
  | noResult (streamed : Nat)
  | toolFailure (streamed : Nat) (msg : String)
  | permissionFailure (streamed : Nat) (msg : String)
  | cancelled (streamed : Nat)
deriving DecidableEq

/-- The events the runner yields. -/
inductive RunnerEvent where
  | ToolCallEvent (tool_name : String) (tool_call_id : String)
  | ToolStreamEvent (tool_name : String) (tool_call_id : String)
  | ToolResultEvent (tool_name : String) (tool_call_id : String)
      (skipped : Bool) (skip_reason : Option String) (error : Option String)
deriving DecidableEq

/-- Handling of one entry of `resolved.failed_calls`: emit a tagged error
result event and count the call as failed. -/
def handle_failed_call (stats : AgentStats) (f : FailedToolCall) :
    List RunnerEvent × AgentStats :=
  ([.ToolResultEvent f.tool_name f.call_id false none
      (some ("<" ++ TOOL_ERROR_TAG ++ ">" ++ f.tool_name ++ ": " ++ f.error
        ++ "</" ++ TOOL_ERROR_TAG ++ ">"))],
    { stats with tool_calls_failed := stats.tool_calls_failed + 1 })

/-- Handling of one entry of `resolved.tool_calls`: the emitted events, the
updated stats, and whether the loop continues (false exactly when the
invocation was cancelled, which re-raises). -/
def handle_resolved_call (stats : AgentStats) (c : ResolvedCall) (o : CallOutcome) :
    List RunnerEvent × AgentStats × Bool :=
  let callEv := RunnerEvent.ToolCallEvent c.tool_name c.call_id
  let streams (n : Nat) : List RunnerEvent :=
    List.replicate n (.ToolStreamEvent c.tool_name c.call_id)
  match o with
  | .lookupFailure exc =>
      ([callEv, .ToolResultEvent c.tool_name c.call_id false none
          (some ("Error getting tool '" ++ c.tool_name ++ "': " ++ exc))],
        stats, true)
  | .skip feedback =>
      let skip_reason := pyOr feedback
        ((get_user_cancellation_message .TOOL_SKIPPED (some c.tool_name)).toStr)
      ([callEv, .ToolResultEvent c.tool_name c.call_id true (some skip_reason) none],
        { stats with tool_calls_rejected := stats.tool_calls_rejected + 1 }, true)
  | .success n =>
      (callEv :: streams n ++ [.ToolResultEvent c.tool_name c.call_id false none none],
        { stats with
            tool_calls_agreed := stats.tool_calls_agreed + 1,
            tool_calls_succeeded := stats.tool_calls_succeeded + 1 }, true)
  | .noResult n =>
      (callEv :: streams n ++ [.ToolResultEvent c.tool_name c.call_id false none
          (some ("<" ++ TOOL_ERROR_TAG ++ ">" ++ c.tool_name ++ " failed: "
            ++ "Tool did not yield a result" ++ "</" ++ TOOL_ERROR_TAG ++ ">"))],
        { stats with
            tool_calls_agreed := stats.tool_calls_agreed + 1,
            tool_calls_failed := stats.tool_calls_failed + 1 }, true)
  | .toolFailure n msg =>
      (callEv :: streams n ++ [.ToolResultEvent c.tool_name c.call_id false none
          (some ("<" ++ TOOL_ERROR_TAG ++ ">" ++ c.tool_name ++ " failed: " ++ msg
            ++ "</" ++ TOOL_ERROR_TAG ++ ">"))],
        { stats with
            tool_calls_agreed := stats.tool_calls_agreed + 1,
            tool_calls_failed := stats.tool_calls_failed + 1 }, true)
  | .permissionFailure n msg =>
      (callEv :: streams n ++ [.ToolResultEvent c.tool_name c.call_id false none
          (some ("<" ++ TOOL_ERROR_TAG ++ ">" ++ c.tool_name ++ " failed: " ++ msg
            ++ "</" ++ TOOL_ERROR_TAG ++ ">"))],
        { stats with
            tool_calls_agreed := stats.tool_calls_agreed + 1 - 1,
            tool_calls_rejected := stats.tool_calls_rejected + 1 }, true)
  | .cancelled n =>
      (callEv :: streams n ++ [.ToolResultEvent c.tool_name c.call_id false none
          (some ((get_user_cancellation_message .TOOL_INTERRUPTED none).toStr))],
        { stats with tool_calls_agreed := stats.tool_calls_agreed + 1 }, false)

/-- The loop over `resolved.tool_calls`; a cancelled invocation re-raises, so
the remaining calls are not handled. -/
def runResolved (stats : AgentStats) :
    List (ResolvedCall × CallOutcome) → List RunnerEvent × AgentStats
  | [] => ([], stats)
  | (c, o) :: rest =>
    match handle_resolved_call stats c o with
    | (evs, stats1, cont) =>
      if cont then
        match runResolved stats1 rest with
        | (evs2, stats2) => (evs ++ evs2, stats2)
      else (evs, stats1)

/-- The loop over `resolved.failed_calls`. -/
def runFailed (stats : AgentStats) : List FailedToolCall → List RunnerEvent × AgentStats
  | [] => ([], stats)
  | f :: rest =>
    match handle_failed_call stats f with
    | (evs, stats1) =>
      match runFailed stats1 rest with
      | (evs2, stats2) => (evs ++ evs2, stats2)

/-- `ToolRunner.handle_tool_calls`: first every failed call, then every
resolved call in order. -/
def handle_tool_calls (stats : AgentStats) (failed : List FailedToolCall)
    (calls : List (ResolvedCall × CallOutcome)) : List RunnerEvent × AgentStats :=
  match runFailed stats failed with
  | (evs1, stats1) =>
    match runResolved stats1 calls with
    | (evs2, stats2) => (evs1 ++ evs2, stats2)

/-- Whether an event is a ToolResultEvent. -/
def isResultEvent : RunnerEvent → Bool
  | .ToolResultEvent _ _ _ _ _ => true
  | _ => false

/-- Whether an event is a ToolResultEvent with skipped = true. -/
def isSkippedResultEvent : RunnerEvent → Bool
  | .ToolResultEvent _ _ skipped _ _ => skipped
  | _ => false

/-- Number of ToolResultEvents in a trace. -/
def countResultEvents (evs : List RunnerEvent) : Nat :=
  evs.countP isResultEvent

/-- Number of skipped ToolResultEvents in a trace. -/
def countSkippedResultEvents (evs : List RunnerEvent) : Nat :=
  evs.countP isSkippedResultEvent

/-- Whether an outcome is a cancelled invocation (which re-raises). -/
def isCancelledOutcome : CallOutcome → Bool
  | .cancelled _ => true
  | _ => false

/-- The outcomes the runner actually handles: everything up to and including
the first cancelled invocation. -/
def processedOutcomes : List (ResolvedCall × CallOutcome) → List CallOutcome
  | [] => []
  | (_, o) :: rest =>
    if isCancelledOutcome o then [o] else o :: processedOutcomes rest

/-- Whether an outcome is a failed tool lookup (no counter is touched). -/
def isLookupFailure : CallOutcome → Bool
  | .lookupFailure _ => true
  | _ => false

/-- Whether an outcome is an executed call that failed with ToolError or
yielded no result (counted as both agreed and failed). -/
def isToolErrorOutcome : CallOutcome → Bool
  | .noResult _ => true
  | .toolFailure _ _ => true
  | _ => false

/-- The joint drift of the agreed, rejected and failed counters. -/
def delta3 (s t : AgentStats) : Int :=
  (t.tool_calls_agreed - s.tool_calls_agreed)
    + (t.tool_calls_rejected - s.tool_calls_rejected)
    + (t.tool_calls_failed - s.tool_calls_failed)

theorem delta3_trans (s t u : AgentStats) : delta3 s u = delta3 s t + delta3 t u := by
  rw [delta3, delta3, delta3]
  ring

theorem countP_isResultEvent_replicate (n : Nat) (a b : String) :
    List.countP isResultEvent (List.replicate n (.ToolStreamEvent a b)) = 0 := by
  induction n with
  | zero => rfl
  | succ n ih =>
    rw [List.replicate_succ, List.countP_cons]
    simp [isResultEvent, ih]

theorem countResultEvents_append (l1 l2 : List RunnerEvent) :
    countResultEvents (l1 ++ l2) = countResultEvents l1 + countResultEvents l2 := by
  rw [countResultEvents, countResultEvents, countResultEvents, List.countP_append]

/-- Per-call accounting: each handled call emits exactly one ToolResultEvent,
and the three counters together move by one per result event, except that a
failed tool lookup moves none of them and a ToolError / missing-result failure
moves two. -/
theorem handle_resolved_call_balance (stats : AgentStats) (c : ResolvedCall)
    (o : CallOutcome) :
    delta3 stats (handle_resolved_call stats c o).2.1 =
      (countResultEvents (handle_resolved_call stats c o).1 : Int)
        - (if isLookupFailure o then 1 else 0)
        + (if isToolErrorOutcome o then 1 else 0)
    ∧ ((handle_resolved_call stats c o).2.2 = false ↔ isCancelledOutcome o = true) := by
  cases o <;>
    simp [handle_resolved_call, delta3, isLookupFailure, isToolErrorOutcome,
      isCancelledOutcome, countResultEvents, List.countP_append, List.countP_cons,
      isResultEvent, countP_isResultEvent_replicate]

theorem runFailed_balance (failed : List FailedToolCall) :
    ∀ stats : AgentStats,
      delta3 stats (runFailed stats failed).2 =
        (countResultEvents (runFailed stats failed).1 : Int)
      ∧ (runFailed stats failed).2.tool_calls_agreed = stats.tool_calls_agreed
      ∧ (runFailed stats failed).2.tool_calls_rejected = stats.tool_calls_rejected := by
  induction failed with
  | nil =>
    intro stats
    simp [runFailed, delta3, countResultEvents]
  | cons f rest ih =>
    intro stats
    have ih2 := ih { stats with tool_calls_failed := stats.tool_calls_failed + 1 }
    rcases hrr : runFailed { stats with tool_calls_failed := stats.tool_calls_failed + 1 } rest
      with ⟨evs2, stats2⟩
    rw [hrr] at ih2
    simp only [runFailed, handle_failed_call, hrr]
    rw [delta3] at ih2 ⊢
    simp only at ih2
    refine ⟨?_, ?_, ?_⟩
    · rw [countResultEvents_append]
      have hone : countResultEvents [RunnerEvent.ToolResultEvent f.tool_name f.call_id false none
          (some ("<" ++ TOOL_ERROR_TAG ++ ">" ++ f.tool_name ++ ": " ++ f.error
            ++ "</" ++ TOOL_ERROR_TAG ++ ">"))] = 1 := rfl
      rw [hone]
      push_cast
      omega
    · exact ih2.2.1
    · exact ih2.2.2

theorem runResolved_balance (calls : List (ResolvedCall × CallOutcome)) :
    ∀ stats : AgentStats,
      delta3 stats (runResolved stats calls).2 =
        (countResultEvents (runResolved stats calls).1 : Int)
          - ((processedOutcomes calls).countP isLookupFailure : Int)
          + ((processedOutcomes calls).countP isToolErrorOutcome : Int) := by
  induction calls with
  | nil =>
    intro stats
    simp [runResolved, delta3, countResultEvents, processedOutcomes]
  | cons co rest ih =>
    intro stats
    obtain ⟨c, o⟩ := co
    have hbal := handle_resolved_call_balance stats c o
    rcases hh : handle_resolved_call stats c o with ⟨evs, stats1, cont⟩
    rw [hh] at hbal
    simp only at hbal
    simp only [runResolved, hh]
    cases hcont : cont with
    | true =>
      have hco : isCancelledOutcome o = false := by
        cases hoc : isCancelledOutcome o
        · rfl
        · have hc2 := hbal.2.mpr hoc
          rw [hcont] at hc2
          exact absurd hc2 (by simp)
      have hproc : processedOutcomes ((c, o) :: rest) = o :: processedOutcomes rest := by
        rw [processedOutcomes, if_neg (by rw [hco]; simp)]
      rcases hrr : runResolved stats1 rest with ⟨evs2, stats2⟩
      have ih2 := ih stats1
      rw [hrr] at ih2
      simp only at ih2
      rw [if_pos rfl]
      simp only [hrr]
      rw [hproc]
      simp only [countResultEvents_append, List.countP_cons]
      rw [delta3_trans stats stats1 stats2, hbal.1, ih2]
      push_cast
      by_cases hl : isLookupFailure o <;> by_cases ht : isToolErrorOutcome o <;>
        simp [hl, ht] <;> ring
    | false =>
      have hoc : isCancelledOutcome o = true := by
        have := hbal.2
        rw [hcont] at this
        exact this.mp rfl
      have hproc : processedOutcomes ((c, o) :: rest) = [o] := by
        rw [processedOutcomes, if_pos hoc]
      rw [if_neg (by simp), hproc]
      have hlf : isLookupFailure o = false := by
        cases o <;> simp_all [isCancelledOutcome, isLookupFailure]
      have hte : isToolErrorOutcome o = false := by
        cases o <;> simp_all [isCancelledOutcome, isToolErrorOutcome]
      simp only [List.countP_cons, List.countP_nil, hlf, hte]
      rw [hbal.1]
      simp [hlf, hte]

/-- C3 (amended): after the runner finishes a resolved message, the total
movement of agreed + rejected + failed equals the number of emitted
ToolResultEvents, minus one for each failed tool lookup (which touches no
counter), plus one for each executed call that failed with ToolError or
yielded no result (which is counted both as agreed and as failed); skipped
events count normally, matching their rejected increment. -/
theorem handle_tool_calls_stats_balance (stats : AgentStats)
    (failed : List FailedToolCall) (calls : List (ResolvedCall × CallOutcome)) :
    delta3 stats (handle_tool_calls stats failed calls).2 =
      (countResultEvents (handle_tool_calls stats failed calls).1 : Int)
        - ((processedOutcomes calls).countP isLookupFailure : Int)
        + ((processedOutcomes calls).countP isToolErrorOutcome : Int) := by
  rcases hf : runFailed stats failed with ⟨evs1, stats1⟩
  rcases hr : runResolved stats1 calls with ⟨evs2, stats2⟩
  have h1 := runFailed_balance failed stats
  rw [hf] at h1
  simp only at h1
  have h2 := runResolved_balance calls stats1
  rw [hr] at h2
  simp only at h2
  simp only [handle_tool_calls, hf, hr]
  simp only [countResultEvents_append]
  rw [delta3_trans stats stats1 stats2, h1.1, h2]
  push_cast
  ring

/-- C3 (counterexample): a single skipped call makes the counters move by one
(tool_calls_rejected) while the trace holds one ToolResultEvent that is
skipped, so "events minus skipped" is zero — the claimed identity fails. -/
theorem handle_tool_calls_skip_breaks_claim :
    delta3 zeroStats
        (handle_tool_calls zeroStats [] [(⟨"bash", "id_1"⟩, .skip none)]).2 = 1
    ∧ (countResultEvents
          (handle_tool_calls zeroStats [] [(⟨"bash", "id_1"⟩, .skip none)]).1 : Int)
        - (countSkippedResultEvents
          (handle_tool_calls zeroStats [] [(⟨"bash", "id_1"⟩, .skip none)]).1 : Int) = 0
    ∧ (1 : Int) ≠ 0 := by
  refine ⟨?_, ?_, by decide⟩
  · rfl
  · rfl

/-- C9: an executed call that raises ToolError or yields no result keeps the
agreed increment and also increments failed — it is counted in both — while a
ToolPermissionError rolls the agreed increment back and counts the call as
rejected instead. -/
theorem tool_error_counts_agreed_and_failed (stats : AgentStats) (c : ResolvedCall)
    (n : Nat) (msg : String) :
    ((handle_resolved_call stats c (.toolFailure n msg)).2.1.tool_calls_agreed
        = stats.tool_calls_agreed + 1
      ∧ (handle_resolved_call stats c (.toolFailure n msg)).2.1.tool_calls_failed
        = stats.tool_calls_failed + 1
      ∧ (handle_resolved_call stats c (.toolFailure n msg)).2.1.tool_calls_rejected
        = stats.tool_calls_rejected)
    ∧ ((handle_resolved_call stats c (.noResult n)).2.1.tool_calls_agreed
        = stats.tool_calls_agreed + 1
      ∧ (handle_resolved_call stats c (.noResult n)).2.1.tool_calls_failed
        = stats.tool_calls_failed + 1
      ∧ (handle_resolved_call stats c (.noResult n)).2.1.tool_calls_rejected
        = stats.tool_calls_rejected)
    ∧ ((handle_resolved_call stats c (.permissionFailure n msg)).2.1.tool_calls_agreed
        = stats.tool_calls_agreed
      ∧ (handle_resolved_call stats c (.permissionFailure n msg)).2.1.tool_calls_rejected
        = stats.tool_calls_rejected + 1
      ∧ (handle_resolved_call stats c (.permissionFailure n msg)).2.1.tool_calls_failed
        = stats.tool_calls_failed) := by
  refine ⟨⟨rfl, rfl, rfl⟩, ⟨rfl, rfl, rfl⟩, ?_, rfl, rfl⟩
  simp [handle_resolved_call]

end ToolRunner

/-! ### Retry policy (`utils.async_retry` / `utils._is_retryable_http_error`)

The decorated call is modelled by the outcome of each attempt: `f n` is what
the n-th call of the wrapped coroutine does.  The sleep between attempts has
no observable effect and is not modelled.  The result carries the number of
attempts actually made. -/

namespace Retry

/-- The exceptions the retry wrapper can see: an `httpx.HTTPStatusError`
carrying a status code, or anything else. -/
inductive PyException where
  | httpStatusError (status_code : Nat)
  | otherException (tag : String)
deriving DecidableEq

/-- `utils._is_retryable_http_error`: an HTTP status error with code in
{408, 409, 425, 429, 500, 502, 503, 504}. -/
def is_retryable_http_error : PyException → Bool
  | .httpStatusError c => [408, 409, 425, 429, 500, 502, 503, 504].contains c
  | .otherException _ => false

/-- The `for attempt in range(tries)` loop of `utils.async_retry`, with the
remaining iterations as fuel: a successful attempt returns, a retryable error
before the last iteration retries, any other error is re-raised.  Exhausting
the range raises the final RuntimeError (unreachable for tries > 0). -/
def retryGo (f : Nat → Except PyException α) (tries : Nat) :
    Nat → Nat → Except PyException α × Nat
  | 0, _ => (.error (.otherException "Retries exhausted"), 0)
  | remaining + 1, attempt =>
    match f attempt with
    | .ok a => (.ok a, 1)
    | .error e =>
      if attempt < tries - 1 ∧ is_retryable_http_error e then
        match retryGo f tries remaining (attempt + 1) with
        | (res, n) => (res, n + 1)
      else (.error e, 1)

/-- `utils.async_retry(tries)` applied to a call whose n-th attempt behaves as
`f n`: the final outcome and the number of attempts made. -/
def async_retry (f : Nat → Except PyException α) (tries : Nat) :
    Except PyException α × Nat :=
  retryGo f tries tries 0

theorem retryGo_attempts_pos (f : Nat → Except PyException α) (tries : Nat) :
    ∀ remaining attempt, 1 ≤ remaining →
      1 ≤ (retryGo f tries remaining attempt).2 := by
  intro remaining attempt hrem
  match remaining, hrem with
  | r + 1, _ =>
    rw [retryGo]
    cases hfa : f attempt with
    | ok a => simp
    | error e =>
      by_cases hif : attempt < tries - 1 ∧ is_retryable_http_error e = true
      · rcases hgo : retryGo f tries r (attempt + 1) with ⟨res, n⟩
        simp [hif, hgo]
      · simp [hif]

theorem retryGo_attempts_le (f : Nat → Except PyException α) (tries : Nat) :
    ∀ remaining attempt, (retryGo f tries remaining attempt).2 ≤ remaining := by
  intro remaining
  induction remaining with
  | zero =>
    intro attempt
    rw [retryGo]
  | succ r ih =>
    intro attempt
    rw [retryGo]
    cases hfa : f attempt with
    | ok a => simp
    | error e =>
      by_cases hif : attempt < tries - 1 ∧ is_retryable_http_error e = true
      · have hle := ih (attempt + 1)
        rcases hgo : retryGo f tries r (attempt + 1) with ⟨res, n⟩
        rw [hgo] at hle
        simp only at hle
        simp [hif, hgo]
        omega
      · simp [hif]

theorem retryGo_first_error (f : Nat → Except PyException α) (tries : Nat)
    (remaining attempt : Nat) (hrem : 2 ≤ remaining) (hatt : attempt < tries - 1)
    (e : PyException) (h : f attempt = .error e) :
    (1 < (retryGo f tries remaining attempt).2 ↔ is_retryable_http_error e = true) := by
  match remaining, hrem with
  | r + 1, hrem =>
    rw [retryGo]
    simp only [h]
    cases hre : is_retryable_http_error e with
    | true =>
      rw [if_pos ⟨hatt, rfl⟩]
      have hpos := retryGo_attempts_pos f tries r (attempt + 1) (by omega)
      rcases hgo : retryGo f tries r (attempt + 1) with ⟨res, n⟩
      rw [hgo] at hpos
      simp only at hpos
      refine iff_of_true ?_ rfl
      simp only [hgo]
      omega
    | false =>
      rw [if_neg (by simp [hre])]
      simp [hre]

/-- C8 (amended): with the default 3 tries, when the first attempt fails the
call is retried (more than one attempt is made) if and only if the exception
is an HTTP status error whose code is one of 408, 409, 425, 429, 500, 502,
503, 504 — not every 5xx code — and never more than 3 attempts are made. -/
theorem async_retry_spec (f : Nat → Except PyException α) (e : PyException)
    (h : f 0 = .error e) :
    (1 < (async_retry f 3).2 ↔ is_retryable_http_error e = true)
    ∧ (async_retry f 3).2 ≤ 3 := by
  constructor
  · rw [async_retry]
    exact retryGo_first_error f 3 3 0 (by omega) (by omega) e h
  · rw [async_retry]
    exact retryGo_attempts_le f 3 3 0

/-- A call whose first attempt raises HTTP 501 and whose second attempt would
succeed. -/
def attempts501 : Nat → Except PyException Nat :=
  fun n => if n = 0 then .error (.httpStatusError 501) else .ok 42

/-- A call whose first attempt raises HTTP 408 and whose second attempt
succeeds. -/
def attempts408 : Nat → Except PyException Nat :=
  fun n => if n = 0 then .error (.httpStatusError 408) else .ok 7

/-- C8 (counterexample): 501 is a 5xx status, yet the wrapper makes exactly
one attempt and propagates the error — the second attempt, which would have
succeeded, never runs, so "retried on any 5xx" is false. -/
theorem async_retry_ignores_501 :
    (async_retry attempts501 3).1 = .error (.httpStatusError 501)
    ∧ (async_retry attempts501 3).2 = 1
    ∧ 500 ≤ 501 ∧ 501 ≤ 599
    ∧ attempts501 1 = .ok 42 := by
  refine ⟨rfl, rfl, by decide, by decide, rfl⟩

/-- C8 (witness): the amended statement at a call failing once with HTTP 408:
it is retried and at most 3 attempts are made. -/
theorem async_retry_spec_witness :
    (1 < (async_retry attempts408 3).2 ↔
      is_retryable_http_error (.httpStatusError 408) = true)
    ∧ (async_retry attempts408 3).2 ≤ 3 :=
  async_retry_spec attempts408 (.httpStatusError 408) rfl

end Retry

/-! ### Tool-call extraction (`kin_code/core/llm/tool_parsing.py`) -/

namespace ToolParsing

/-- A JSON value, as produced by `json.loads`. -/
inductive JsonValue where
  | null
  | bool (b : Bool)
  | num (q : Rat)
  | str (s : String)
  | arr (elems : List JsonValue)
  | obj (entries : List (String × JsonValue))

/-- A parsed tool call. Modelled from the spec: `ParsedToolCall {tool_name,
call_id, raw_args (K→V mapping of string or JSON value)}` (its defining module
`kin_code/core/llm/format.py` is not in the sources); `raw_args` holds whatever
JSON value `json.loads` produced for the API format, and an object of strings
for the XML format. -/
structure ParsedToolCall where
  tool_name : String
  raw_args : JsonValue
  call_id : String

/-- `APIToolCallExtractor.extract`, parameterised by the JSON parser standing
in for `json.loads` (an entry whose `function` is absent is skipped; absent or
empty arguments parse as the empty object; a parse failure silently yields
empty raw_args).  `strip_from_content` is discarded and the content is never
modified. -/
def api_extract (parse : String → Except String JsonValue) (message : LLMMessage)
    (_strip_from_content : Bool) : List ParsedToolCall × Option String :=
  (message.tool_calls.filterMap (fun tc =>
    match tc.function with
    | none => none
    | some f =>
      let args : JsonValue :=
        match parse (pyOr f.arguments ("{}")) with
        | .ok v => v
        | .error _ => JsonValue.obj []
      some { tool_name := pyOr f.name "", raw_args := args, call_id := pyOr tc.id "" }),
    none)

/-- C10: a structured tool call whose arguments text does not parse as JSON is
not dropped and produces no error: it becomes a ParsedToolCall with empty
raw_args, in its place in the sequence, and the content is left untouched. -/
theorem api_extract_malformed_args (parse : String → Except String JsonValue)
    (message : LLMMessage) (pre post : List ToolCall) (tc : ToolCall)
    (f : ToolCallFunction) (err : String) (strip : Bool)
    (hcalls : message.tool_calls = pre ++ tc :: post)
    (hf : tc.function = some f)
    (hparse : parse (pyOr f.arguments ("{}")) = .error err) :
    (api_extract parse message strip).1 =
      (api_extract parse { message with tool_calls := pre } strip).1
        ++ { tool_name := pyOr f.name "", raw_args := JsonValue.obj [],
              call_id := pyOr tc.id "" }
        :: (api_extract parse { message with tool_calls := post } strip).1
    ∧ (api_extract parse message strip).2 = none := by
  constructor
  · simp only [api_extract, hcalls, List.filterMap_append, List.filterMap_cons, hf, hparse]
  · rfl

/-- A message carrying one structured tool call with malformed JSON args. -/
def sampleBadArgsMessage : LLMMessage :=
  { role := Role.assistant, content := some ""
    tool_calls := [⟨some "id_9", some ⟨some "shell", some "\x7bnot json"⟩⟩]
    tool_call_id := none, name := none }

/-- A parser that rejects every input, standing in for `json.loads` on inputs
that are not valid JSON. -/
def alwaysFailParse : String → Except String JsonValue :=
  fun _ => .error "Expecting value"

/-- C10 (witness): the theorem applied to a concrete malformed call. -/
theorem api_extract_malformed_args_witness :
    (api_extract alwaysFailParse sampleBadArgsMessage true).1 =
      (api_extract alwaysFailParse { sampleBadArgsMessage with tool_calls := [] } true).1
        ++ { tool_name := pyOr (some "shell") "", raw_args := JsonValue.obj [],
              call_id := pyOr (some "id_9") "" }
        :: (api_extract alwaysFailParse { sampleBadArgsMessage with tool_calls := [] } true).1
    ∧ (api_extract alwaysFailParse sampleBadArgsMessage true).2 = none :=
  api_extract_malformed_args alwaysFailParse sampleBadArgsMessage [] []
    ⟨some "id_9", some ⟨some "shell", some "\x7bnot json"⟩⟩
    ⟨some "shell", some "\x7bnot json"⟩ "Expecting value" true rfl rfl rfl

/-- Case-insensitive literal match at the head of the input (the regexes carry
re.IGNORECASE): returns the remainder on success. -/
def matchInsensitive : List Char → List Char → Option (List Char)
  | [], s => some s
  | _ :: _, [] => none
  | p :: ps, c :: cs => if c.toLower = p.toLower then matchInsensitive ps cs else none

/-- Earliest occurrence of a (case-insensitive) literal: the text before it and
the text after it, scanning left to right — this is how the non-greedy `(.*?)`
followed by the closing tag matches. -/
def splitAtPattern (pat : List Char) : List Char → Option (List Char × List Char)
  | [] =>
    match matchInsensitive pat [] with
    | some rest => some ([], rest)
    | none => none
  | c :: cs =>
    match matchInsensitive pat (c :: cs) with
    | some rest => some ([], rest)
    | none =>
      match splitAtPattern pat cs with
      | some (before, after) => some (c :: before, after)
      | none => none

/-- One attempted match of `<open>name(​[^>]+)>body(.*?)<close>` at the current
position: the opening literal, then a nonempty run of non-`>` characters
closed by `>`, then the earliest closing literal.  Returns (name, body,
remainder after the close tag). -/
def tryMatchTagAt (openPat closePat s : List Char) :
    Option (List Char × List Char × List Char) :=
  match matchInsensitive openPat s with
  | none => none
  | some afterOpen =>
    match afterOpen.span (fun c => c ≠ '>') with
    | (nm, rest1) =>
      match rest1 with
      | [] => none
      | _ :: restAfterGt =>
        if nm = [] then none
        else
          match splitAtPattern closePat restAfterGt with
          | none => none
          | some (body, rest2) => some (nm, body, rest2)

/-- The scan of `re.findall` / `re.sub` for a tag pattern: leftmost
non-overlapping matches, advancing one character when no match starts at the
current position.  Returns the matches (name, body) in order and the input
with the matched spans removed (what `sub("")` leaves).  The fuel is the input
length plus one; every step consumes at least one character, so it never runs
out. -/
def scanTags (openPat closePat : List Char) :
    Nat → List Char → List (List Char × List Char) × List Char
  | 0, s => ([], s)
  | _ + 1, [] => ([], [])
  | fuel + 1, c :: cs =>
    match tryMatchTagAt openPat closePat (c :: cs) with
    | some (nm, body, rest) =>
      match scanTags openPat closePat fuel rest with
      | (ms, stripped) => ((nm, body) :: ms, stripped)
    | none =>
      match scanTags openPat closePat fuel cs with
      | (ms, stripped) => (ms, c :: stripped)

/-- Python `str.strip()` whitespace (the ASCII whitespace characters). -/
def isPySpace (c : Char) : Bool :=
  c = ' ' ∨ c = '\t' ∨ c = '\n' ∨ c = '\r' ∨ c = '\x0b' ∨ c = '\x0c'

/-- Python `str.strip()` on a character list. -/
def pyStrip (s : List Char) : List Char :=
  ((s.dropWhile isPySpace).reverse.dropWhile isPySpace).reverse

/-- Python `str.strip()`. -/
def strStrip (s : String) : String :=
  ⟨pyStrip s.data⟩

/-- Python dict assignment `d[k] = v`: replace in place if the key exists,
append otherwise. -/
def dictInsert (k v : String) : List (String × String) → List (String × String)
  | [] => [(k, v)]
  | (k2, v2) :: rest => if k2 = k then (k, v) :: rest else (k2, v2) :: dictInsert k v rest

/-- The `_PARAMETER_TAG_PATTERN.findall(func_body)` loop: build the args dict
from `<parameter=name>value</parameter>` tags, stripping names and values. -/
def parseParameters (body : List Char) : List (String × String) :=
  (scanTags ("<parameter=".toList) ("</parameter>".toList) (body.length + 1) body).1.foldl
    (fun acc p => dictInsert (strStrip ⟨p.1⟩) (strStrip ⟨p.2⟩) acc) []

/-- The function-tag matches of a content string together with the content
left after removing them. -/
def xmlMatches (content : String) : List (List Char × List Char) × List Char :=
  scanTags ("<function=".toList) ("</function>".toList) (content.data.length + 1) content.data

/-- Building one ParsedToolCall from the i-th match: stripped name, stripped
parameter dict, and a synthetic call id `xml_` + fresh uuid hex. -/
def xmlToolCall (gen : Nat → String) (p : Nat × (List Char × List Char)) : ParsedToolCall :=
  { tool_name := strStrip ⟨p.2.1⟩
    raw_args := JsonValue.obj ((parseParameters p.2.2).map (fun kv => (kv.1, JsonValue.str kv.2)))
    call_id := "xml_" ++ gen p.1 }

/-- `XMLToolCallExtractor.extract`.  The call of `uuid4().hex[:12]` for the
i-th extracted call is modelled by the random supply `gen i`: a run of the
extractor corresponds to one choice of `gen`. -/
def xml_extract (gen : Nat → String) (message : LLMMessage) (strip_from_content : Bool) :
    List ParsedToolCall × Option String :=
  match message.content with
  | none => ([], none)
  | some content =>
    if content = "" then ([], none)
    else
      let tool_calls := (xmlMatches content).1.enum.map (xmlToolCall gen)
      if tool_calls.isEmpty then ([], none)
      else
        (tool_calls,
          if strip_from_content then some (strStrip ⟨(xmlMatches content).2⟩) else none)

theorem isEmpty_map (f : α → β) (l : List α) : (l.map f).isEmpty = l.isEmpty := by
  cases l <;> rfl

/-- C7 (amended): two runs of the XML extractor on the same message agree on
the extracted tool names, the raw argument dicts, their order, and the cleaned
content; only the synthetic call ids differ, and every call id starts with
`xml_` followed by the run's fresh uuid hex. -/
theorem xml_extract_deterministic_up_to_ids (gen1 gen2 : Nat → String)
    (message : LLMMessage) (strip : Bool) :
    (xml_extract gen1 message strip).1.map (fun pc => pc.tool_name)
      = (xml_extract gen2 message strip).1.map (fun pc => pc.tool_name)
    ∧ (xml_extract gen1 message strip).1.map (fun pc => pc.raw_args)
      = (xml_extract gen2 message strip).1.map (fun pc => pc.raw_args)
    ∧ (xml_extract gen1 message strip).2 = (xml_extract gen2 message strip).2
    ∧ ((xml_extract gen1 message strip).1.all
        (fun pc => pc.call_id.data.take 4 == "xml_".data)) = true := by
  cases hc : message.content with
  | none => simp [xml_extract, hc]
  | some content =>
    by_cases hemp : content = ""
    · simp [xml_extract, hc, hemp]
    · simp only [xml_extract, hc, if_neg hemp]
      have hemp2 : ∀ gen : Nat → String,
          (List.map (xmlToolCall gen) (xmlMatches content).1.enum).isEmpty
            = (xmlMatches content).1.enum.isEmpty :=
        fun gen => isEmpty_map _ _
      by_cases hmt : (xmlMatches content).1.enum.isEmpty = true
      · rw [if_pos (by rw [hemp2]; exact hmt), if_pos (by rw [hemp2]; exact hmt)]
        exact ⟨rfl, rfl, rfl, rfl⟩
      · have hne1 : (List.map (xmlToolCall gen1) (xmlMatches content).1.enum).isEmpty
            = false := by
          rw [hemp2]
          exact Bool.eq_false_iff.mpr hmt
        have hne2 : (List.map (xmlToolCall gen2) (xmlMatches content).1.enum).isEmpty
            = false := by
          rw [hemp2]
          exact Bool.eq_false_iff.mpr hmt
        rw [hne1, hne2]
        simp only [Bool.false_eq_true, if_false]
        refine ⟨?_, ?_, trivial, ?_⟩
        · simp only [List.map_map]
          rfl
        · simp only [List.map_map]
          rfl
        · rw [List.all_eq_true]
          intro pc hpc
          rcases List.mem_map.mp hpc with ⟨p, _, rfl⟩
          show (List.take 4 ("xml_" ++ gen1 p.1).data == ['x', 'm', 'l', '_']) = true
          rw [String.data_append, List.take_left' (by rfl)]
          rfl

/-- A message whose content carries one XML tool call. -/
def sampleXmlMessage : LLMMessage :=
  { role := Role.assistant
    content := some "Let me look.\n<function=read_file><parameter=path>x.py</parameter></function>"
    tool_calls := [], tool_call_id := none, name := none }

/-- One possible uuid supply. -/
def genHexA : Nat → String := fun _ => "aaaaaaaaaaaa"

/-- Another possible uuid supply. -/
def genHexB : Nat → String := fun _ => "bbbbbbbbbbbb"

/-- C7 (counterexample): two runs of the XML extractor on the same content draw
different uuid4 values, so the ParsedToolCall sequences differ — the call ids
are `xml_<fresh hex>` and do not repeat across runs; name, args and cleaned
content do agree. -/
theorem xml_extract_runs_differ :
    xml_extract genHexA sampleXmlMessage true ≠ xml_extract genHexB sampleXmlMessage true
    ∧ (xml_extract genHexA sampleXmlMessage true).1.map (fun pc => pc.call_id)
        = ["xml_aaaaaaaaaaaa"]
    ∧ (xml_extract genHexB sampleXmlMessage true).1.map (fun pc => pc.call_id)
        = ["xml_bbbbbbbbbbbb"]
    ∧ (xml_extract genHexA sampleXmlMessage true).1.map (fun pc => pc.tool_name)
        = ["read_file"]
    ∧ (xml_extract genHexA sampleXmlMessage true).2 = some "Let me look." := by
  have hA : (xml_extract genHexA sampleXmlMessage true).1.map (fun pc => pc.call_id)
      = ["xml_aaaaaaaaaaaa"] := by decide
  have hB : (xml_extract genHexB sampleXmlMessage true).1.map (fun pc => pc.call_id)
      = ["xml_bbbbbbbbbbbb"] := by decide
  refine ⟨?_, hA, hB, by decide, by decide⟩
  intro h
  have hcontr := congrArg (fun r => r.1.map (fun pc => pc.call_id)) h
  simp only at hcontr
  rw [hA, hB] at hcontr
  exact absurd hcontr (by decide)

end ToolParsing

end KinCode
